import Mathlib

/-!
Browse, search and statistics handlers of the facette server.

A shallow embedding of `pkg/server/browse.go` and `pkg/server/handler.go`.

Go strings are modelled as lists of Unicode code points (`GoString`); on valid
UTF-8 the byte-level operations used here (`strings.Split`, `strings.Trim`,
`strings.Index` as a membership test, `strings.HasPrefix`) agree with their
code-point-level counterparts.  Go maps are modelled by association lists
giving the order in which one `range` loop enumerates them.  Template
rendering and response writing are I/O and are left out: each handler is
modelled up to the value it hands to the template.
-/

namespace Facette

/-- A Go string, as its sequence of code points. -/
abbrev GoString := List Char

/-! ## The `strings` and `unicode` functions used by the handlers -/

namespace unicode

/-- The rune mapping `unicode.ToLower`: the ASCII range is handled inline
(`'A'..'Z'` shifted by `'a' - 'A'`), every other rune goes through the case
tables, which are the parameter `caseTable`. -/
def ToLower (caseTable : Char → Char) (r : Char) : Char :=
  if r.toNat ≤ 127 then
    if 'A'.toNat ≤ r.toNat ∧ r.toNat ≤ 'Z'.toNat then
      Char.ofNat (r.toNat + ('a'.toNat - 'A'.toNat))
    else r
  else caseTable r

end unicode

namespace strings

/-- The function `strings.ToLower`: maps every rune through `unicode.ToLower`. -/
def ToLower (caseTable : Char → Char) (s : GoString) : GoString :=
  s.map (unicode.ToLower caseTable)

/-- Scanning loop of `Split`: `skip` counts the remaining characters of the
separator occurrence being consumed, `cur` is the current piece, reversed. -/
def splitLoop (sep : GoString) : GoString → Nat → GoString → List GoString
  | [], _, cur => [cur.reverse]
  | _ :: cs, skip + 1, cur => splitLoop sep cs skip cur
  | c :: cs, 0, cur =>
    if sep.isPrefixOf (c :: cs) then cur.reverse :: splitLoop sep cs (sep.length - 1) []
    else splitLoop sep cs 0 (c :: cur)

/-- The function `strings.Split`: the pieces of `s` between the non-overlapping
occurrences of `sep`, taken leftmost first; one piece more than occurrences.
An empty `sep` explodes `s` into its characters. -/
def Split (s sep : GoString) : List GoString :=
  if sep = [] then s.map (fun c => [c]) else splitLoop sep s 0 []

/-- The function `strings.Join`. -/
def Join : List GoString → GoString → GoString
  | [], _ => []
  | [a], _ => a
  | a :: b :: rest, sep => a ++ sep ++ Join (b :: rest) sep

/-- The function `strings.TrimLeft`. -/
def TrimLeft (s cutset : GoString) : GoString :=
  s.dropWhile (fun c => cutset.contains c)

/-- The function `strings.TrimRight`. -/
def TrimRight (s cutset : GoString) : GoString :=
  (s.reverse.dropWhile (fun c => cutset.contains c)).reverse

/-- The function `strings.Trim`: drops the leading and trailing characters
that belong to `cutset`. -/
def Trim (s cutset : GoString) : GoString :=
  TrimRight (TrimLeft s cutset) cutset

/-- Scanning loop of `Index`, `i` being the offset reached. -/
def indexLoop (substr : GoString) : GoString → Int → Int
  | [], i => if substr = [] then i else -1
  | c :: cs, i => if substr.isPrefixOf (c :: cs) then i else indexLoop substr cs (i + 1)

/-- The function `strings.Index`: offset of the first occurrence of `substr`
in `s`, or `-1` when there is none. -/
def Index (s substr : GoString) : Int :=
  indexLoop substr s 0

/-- The function `strings.HasPrefix`. -/
def HasPrefix (s pre : GoString) : Bool :=
  pre.isPrefixOf s

/-- The function `strings.TrimPrefix`. -/
def TrimPrefix (s pre : GoString) : GoString :=
  if HasPrefix s pre then s.drop pre.length else s

end strings

/-! ## Catalog and library, as far as the handlers read them -/

/-- A `catalog.Source`: its display name and the keys of its `Metrics` map. -/
structure Source where
  Name : GoString
  Metrics : List GoString

/-- A `catalog.Origin`: its `Sources` map, as key/value pairs in enumeration
order. -/
structure Origin where
  Sources : List (GoString × Source)

/-- A `catalog.Catalog`: its `Origins` map, as key/value pairs in enumeration
order. -/
structure Catalog where
  Origins : List (GoString × Origin)

/-- A `library.Collection`; `Parent` is the nullable pointer to the parent
collection. -/
inductive Collection where
  | mk (ID : GoString) (Name : GoString) (Parent : Option Collection)

namespace Collection

/-- Field `ID`. -/
def ID : Collection → GoString
  | mk id _ _ => id

/-- Field `Name`. -/
def Name : Collection → GoString
  | mk _ name _ => name

/-- Field `Parent`. -/
def Parent : Collection → Option Collection
  | mk _ _ parent => parent

end Collection

/-- A `library.Library`: the `Collections` map as key/value pairs in
enumeration order, and the keys of the `Graphs` and `Groups` maps. -/
structure Library where
  Collections : List (GoString × Collection)
  Graphs : List GoString
  Groups : List GoString

/-! ## `serveBrowseSearch` -/

/-- The template data of `serveBrowseSearch`. -/
structure SearchData where
  Count : Nat
  Sources : List Source
  Collections : List Collection

/-- The chunk-building loop of `serveBrowseSearch` (lines 155-159): lowercase
the query, split it on `" "`, trim space and tab from each piece. -/
def searchChunks (caseTable : Char → Char) (q : GoString) : List GoString :=
  (strings.Split (strings.ToLower caseTable q) " ".toList).foldl
    (fun chunks chunk => chunks ++ [strings.Trim chunk " \t".toList]) []

/-- The inner `for _, chunk := range chunks` loop over one entity name:
`false` as soon as a chunk is not found (the `goto`), `true` when the loop
runs to its end. -/
def chunkLoop (caseTable : Char → Char) (name : GoString) : List GoString → Bool
  | [] => true
  | chunk :: rest =>
    if strings.Index (strings.ToLower caseTable name) chunk = -1 then false
    else chunkLoop caseTable name rest

/-- The loop over the sources of one origin (lines 162-171), appending to the
sources collected so far. -/
def sourceLoop (caseTable : Char → Char) (chunks : List GoString) :
    List (GoString × Source) → List Source → List Source
  | [], acc => acc
  | (_, source) :: rest, acc =>
    if chunkLoop caseTable source.Name chunks then
      sourceLoop caseTable chunks rest (acc ++ [source])
    else sourceLoop caseTable chunks rest acc

/-- The loop over the origins of the catalog (lines 161-172). -/
def originLoop (caseTable : Char → Char) (chunks : List GoString) :
    List (GoString × Origin) → List Source → List Source
  | [], acc => acc
  | (_, origin) :: rest, acc =>
    originLoop caseTable chunks rest (sourceLoop caseTable chunks origin.Sources acc)

/-- The loop over the collections of the library (lines 174-183). -/
def collectionLoop (caseTable : Char → Char) (chunks : List GoString) :
    List (GoString × Collection) → List Collection → List Collection
  | [], acc => acc
  | (_, collection) :: rest, acc =>
    if chunkLoop caseTable collection.Name chunks then
      collectionLoop caseTable chunks rest (acc ++ [collection])
    else collectionLoop caseTable chunks rest acc

/-- Lines 161-183 of `serveBrowseSearch` for a given chunk list: the two
filtering loops, giving `data.Sources` and `data.Collections`. -/
def searchWith (caseTable : Char → Char) (chunks : List GoString)
    (catalog : Catalog) (library : Library) : List Source × List Collection :=
  (originLoop caseTable chunks catalog.Origins [],
   collectionLoop caseTable chunks library.Collections [])

/-- The handler `serveBrowseSearch` up to template execution; `q` is
`request.FormValue("q")`.  The count is taken after the guarded block. -/
def serveBrowseSearch (caseTable : Char → Char) (catalog : Catalog) (library : Library)
    (q : GoString) : SearchData :=
  let found : List Source × List Collection :=
    if q ≠ [] then searchWith caseTable (searchChunks caseTable q) catalog library
    else ([], [])
  { Count := found.1.length + found.2.length, Sources := found.1, Collections := found.2 }

/-- The entities walked by the source loops, in walking order: the sources of
each origin, origin after origin. -/
def allSources (catalog : Catalog) : List Source :=
  (catalog.Origins.map (fun o => o.2.Sources.map Prod.snd)).flatten

/-- The entities walked by the collection loop, in walking order. -/
def allCollections (library : Library) : List Collection :=
  library.Collections.map Prod.snd

/-- The matcher as the specification words it: every token is a substring of
the lowercased entity name. -/
def matchesAll (caseTable : Char → Char) (name : GoString) (tokens : List GoString) : Prop :=
  ∀ t ∈ tokens, t <:+: strings.ToLower caseTable name

/-- The specification's matcher is decidable: an infix test for each token. -/
instance matchesAll.decidable (caseTable : Char → Char) (name : GoString)
    (tokens : List GoString) : Decidable (matchesAll caseTable name tokens) :=
  inferInstanceAs (Decidable (∀ t ∈ tokens, t <:+: strings.ToLower caseTable name))

/-- The same predicate as a boolean test on `strings.Index`. -/
def matchesAllB (caseTable : Char → Char) (tokens : List GoString) (name : GoString) : Bool :=
  tokens.all (fun t => decide (strings.Index (strings.ToLower caseTable name) t ≠ -1))

/-! ## `getStats` -/

namespace set

/-- Modelled from the spec: the vendored package `thirdparty/github.com/fatih/set`
is not among the sources; the specification describes it as a deduplicating
accumulator whose final size is the number of distinct items added.  The items
are kept in insertion order, none twice. -/
abbrev Interface := List GoString

/-- Modelled from the spec: `set.New`, the empty accumulator. -/
def New : Interface := []

/-- Modelled from the spec: `Add`, which leaves the set unchanged when the item
is already present. -/
def Add (s : Interface) (item : GoString) : Interface :=
  if item ∈ s then s else s ++ [item]

/-- Modelled from the spec: `Size`, the number of items held. -/
def Size (s : Interface) : Nat := s.length

end set

/-- The `statsResponse` value returned by `getStats`. -/
structure statsResponse where
  Origins : Nat
  Sources : Nat
  Metrics : Nat
  Graphs : Nat
  Collections : Nat
  Groups : Nat
  deriving DecidableEq

/-- The loop `for key := range source.Metrics` (lines 145-147). -/
def metricLoop : List GoString → set.Interface → set.Interface
  | [], metricSet => metricSet
  | key :: rest, metricSet => metricLoop rest (set.Add metricSet key)

/-- The loop `for key, source := range origin.Sources` (lines 142-148) on the
pair `(sourceSet, metricSet)`. -/
def statsSourceLoop :
    List (GoString × Source) → set.Interface × set.Interface → set.Interface × set.Interface
  | [], sets => sets
  | (key, source) :: rest, (sourceSet, metricSet) =>
    statsSourceLoop rest (set.Add sourceSet key, metricLoop source.Metrics metricSet)

/-- The loop `for _, origin := range server.Catalog.Origins` (lines 141-149). -/
def statsOriginLoop :
    List (GoString × Origin) → set.Interface × set.Interface → set.Interface × set.Interface
  | [], sets => sets
  | (_, origin) :: rest, sets => statsOriginLoop rest (statsSourceLoop origin.Sources sets)

/-- The function `getStats`. -/
def getStats (catalog : Catalog) (library : Library) : statsResponse :=
  let sets := statsOriginLoop catalog.Origins (set.New, set.New)
  { Origins := catalog.Origins.length
    Sources := set.Size sets.1
    Metrics := set.Size sets.2
    Graphs := library.Graphs.length
    Collections := library.Collections.length
    Groups := library.Groups.length }

/-- Every source key met by the walk of `getStats`, in walking order. -/
def sourceKeys (catalog : Catalog) : List GoString :=
  (catalog.Origins.map (fun o => o.2.Sources.map Prod.fst)).flatten

/-- Every metric key met by the walk of `getStats`, in walking order. -/
def metricKeys (catalog : Catalog) : List GoString :=
  (catalog.Origins.map (fun o => (o.2.Sources.map (fun s => s.2.Metrics)).flatten)).flatten

/-! ## `serveBrowseCollection` -/

/-- The errors a handler returns, as far as `serveBrowse` tells them apart:
`os.ErrNotExist` and everything else. -/
inductive HandlerError where
  | ErrNotExist
  | other
  deriving DecidableEq

/-- The local type `collectionData`: the collection and its parent marker. -/
structure collectionData where
  Collection : Collection
  Parent : GoString

/-- The handler `serveBrowseCollection` up to template execution.  The library
operations `GetItem` (restricted to collections) and `FilterCollection` belong
to another package and are parameters; `path` is `request.URL.Path` and `q` is
`request.FormValue("q")`. -/
def serveBrowseCollection (urlBrowsePath : GoString)
    (GetItem : GoString → Except HandlerError Collection)
    (FilterCollection : Collection → GoString → Collection)
    (path q : GoString) : Except HandlerError collectionData :=
  let id := strings.TrimPrefix path (urlBrowsePath ++ "collections/".toList)
  match GetItem id with
  | .error err => .error err
  | .ok item =>
    let collection := if q ≠ [] then FilterCollection item q else item
    match collection.Parent with
    | some parent => .ok { Collection := collection, Parent := parent.ID }
    | none => .ok { Collection := collection, Parent := "null".toList }

/-! ## `serveBrowse` -/

/-- The three views `serveBrowse` dispatches to. -/
inductive View where
  | collection
  | search
  | index
  deriving DecidableEq

/-- What `serveBrowse` does with a request: the status it answers, the view
handler it called if any, and the redirect target if any. -/
structure BrowseOutcome where
  status : Nat
  view : Option View
  location : Option GoString
  deriving DecidableEq

/-- The handler `serveBrowse`.  `urlBrowsePath` is the package constant and
`urlPrefix` the configured prefix; `run v` is the error returned by the handler
of view `v` (`none` for `nil`). -/
def serveBrowse (urlPrefix urlBrowsePath : GoString) (run : View → Option HandlerError)
    (method path : GoString) : BrowseOutcome :=
  if method ≠ "GET".toList ∧ method ≠ "HEAD".toList then
    { status := 405, view := none, location := none }
  else if path = "/".toList then
    { status := 301, view := none, location := some (urlPrefix ++ urlBrowsePath) }
  else
    let called : Option View :=
      if strings.HasPrefix path (urlBrowsePath ++ "collections/".toList) then some View.collection
      else if path = urlBrowsePath ++ "search".toList then some View.search
      else if path = urlBrowsePath then some View.index
      else none
    let err : Option HandlerError :=
      match called with
      | some v => run v
      | none => some HandlerError.ErrNotExist
    match err with
    | some HandlerError.ErrNotExist => { status := 404, view := called, location := none }
    | some HandlerError.other => { status := 500, view := called, location := none }
    | none => { status := 200, view := called, location := none }

/-- The tokenizer as the specification words it: lowercase the query, split
it on single spaces, trim space and tab from each piece. -/
def tokenize (caseTable : Char → Char) (q : GoString) : List GoString :=
  (strings.Split (strings.ToLower caseTable q) " ".toList).map
    (fun piece => strings.Trim piece " \t".toList)

/-- The token set of a query as the specification words it in its data model:
the empty query yields the empty set, any other query its tokens. -/
def tokenSet (caseTable : Char → Char) (q : GoString) : List GoString :=
  if q = [] then [] else tokenize caseTable q

/-- The non-empty tokens of a query. -/
def nonEmptyTokens (caseTable : Char → Char) (q : GoString) : List GoString :=
  (tokenize caseTable q).filter (fun t => decide (t ≠ []))

/-! ## Example data -/

/-- A catalog with one origin holding the sources named in `names`. -/
def catalogOfNames (names : List GoString) : Catalog :=
  { Origins := [("origin1".toList, { Sources := names.map (fun n => (n, { Name := n, Metrics := [] })) })] }

/-- A case table that lowers "É" to "é" and leaves every other rune as it is. -/
def latinTable (c : Char) : Char :=
  if c = 'É' then 'é' else c

/-- The catalog whose sources are named "CPU Load Avg" and "Memory". -/
def cpuCatalog : Catalog := catalogOfNames ["CPU Load Avg".toList, "Memory".toList]

/-- The same catalog with its sources enumerated in the other order. -/
def cpuCatalogReversed : Catalog := catalogOfNames ["Memory".toList, "CPU Load Avg".toList]

/-- A library with no collection, graph or group. -/
def emptyLibrary : Library := { Collections := [], Graphs := [], Groups := [] }

/-- The catalog `{origin1: {sourceA: {m1,m2}}, origin2: {sourceA: {m2,m3}}}`. -/
def statsCatalog : Catalog :=
  { Origins :=
      [("origin1".toList, { Sources := [("sourceA".toList,
          { Name := "sourceA".toList, Metrics := ["m1".toList, "m2".toList] })] }),
       ("origin2".toList, { Sources := [("sourceA".toList,
          { Name := "sourceA".toList, Metrics := ["m2".toList, "m3".toList] })] })] }

/-! ## Lemmas on the string functions -/

theorem indexLoop_eq_neg_one (substr : GoString) (s : GoString) (i : Int) (hi : 0 ≤ i) :
    strings.indexLoop substr s i = -1 ↔ ¬ substr <:+: s := by
  induction s generalizing i with
  | nil =>
    unfold strings.indexLoop
    by_cases h : substr = []
    · subst h
      simp
      omega
    · simp [h]
  | cons c cs ih =>
    unfold strings.indexLoop
    rw [List.infix_cons_iff]
    by_cases h : substr.isPrefixOf (c :: cs) = true
    · rw [if_pos h]
      have hp := List.isPrefixOf_iff_prefix.mp h
      constructor
      · intro h1
        omega
      · intro h1
        exact absurd (Or.inl hp) h1
    · rw [if_neg h, ih (i + 1) (by omega)]
      have hp : ¬ substr <+: c :: cs := fun hp => h (List.isPrefixOf_iff_prefix.mpr hp)
      constructor
      · rintro h1 (h2 | h2)
        · exact hp h2
        · exact h1 h2
      · intro h1 h2
        exact h1 (Or.inr h2)

theorem Index_eq_neg_one (s substr : GoString) :
    strings.Index s substr = -1 ↔ ¬ substr <:+: s :=
  indexLoop_eq_neg_one substr s 0 (le_refl 0)

theorem Index_nil (s : GoString) : strings.Index s [] ≠ -1 := by
  intro h
  exact (Index_eq_neg_one s []).mp h List.nil_infix

/-! ## Lemmas on the search loops -/

theorem chunkLoop_eq_matchesAllB (caseTable : Char → Char) (name : GoString)
    (chunks : List GoString) :
    chunkLoop caseTable name chunks = matchesAllB caseTable chunks name := by
  induction chunks with
  | nil => rfl
  | cons chunk rest ih =>
    unfold chunkLoop
    by_cases h : strings.Index (strings.ToLower caseTable name) chunk = -1
    · simp [matchesAllB, h]
    · rw [if_neg h, ih]
      simp [matchesAllB, h]

theorem matchesAllB_iff (caseTable : Char → Char) (name : GoString) (chunks : List GoString) :
    matchesAllB caseTable chunks name = true ↔ matchesAll caseTable name chunks := by
  unfold matchesAllB matchesAll
  rw [List.all_eq_true]
  constructor
  · intro h t ht
    have := h t ht
    rw [decide_eq_true_eq, Ne, Index_eq_neg_one] at this
    exact not_not.mp this
  · intro h t ht
    rw [decide_eq_true_eq, Ne, Index_eq_neg_one]
    exact not_not.mpr (h t ht)

theorem sourceLoop_eq (caseTable : Char → Char) (chunks : List GoString)
    (l : List (GoString × Source)) (acc : List Source) :
    sourceLoop caseTable chunks l acc =
      acc ++ (l.map Prod.snd).filter (fun s => matchesAllB caseTable chunks s.Name) := by
  induction l generalizing acc with
  | nil => simp [sourceLoop]
  | cons p rest ih =>
    obtain ⟨k, source⟩ := p
    unfold sourceLoop
    rw [chunkLoop_eq_matchesAllB]
    by_cases h : matchesAllB caseTable chunks source.Name = true
    · rw [if_pos h, ih]
      simp [List.filter_cons, h]
    · rw [if_neg h, ih]
      simp [List.filter_cons, h]

theorem originLoop_eq (caseTable : Char → Char) (chunks : List GoString)
    (l : List (GoString × Origin)) (acc : List Source) :
    originLoop caseTable chunks l acc =
      acc ++ ((l.map (fun o => o.2.Sources.map Prod.snd)).flatten).filter
        (fun s => matchesAllB caseTable chunks s.Name) := by
  induction l generalizing acc with
  | nil => simp [originLoop]
  | cons p rest ih =>
    obtain ⟨k, origin⟩ := p
    unfold originLoop
    rw [ih, sourceLoop_eq]
    simp [List.filter_append]

theorem collectionLoop_eq (caseTable : Char → Char) (chunks : List GoString)
    (l : List (GoString × Collection)) (acc : List Collection) :
    collectionLoop caseTable chunks l acc =
      acc ++ (l.map Prod.snd).filter (fun c => matchesAllB caseTable chunks c.Name) := by
  induction l generalizing acc with
  | nil => simp [collectionLoop]
  | cons p rest ih =>
    obtain ⟨k, collection⟩ := p
    unfold collectionLoop
    rw [chunkLoop_eq_matchesAllB]
    by_cases h : matchesAllB caseTable chunks collection.Name = true
    · rw [if_pos h, ih]
      simp [List.filter_cons, h]
    · rw [if_neg h, ih]
      simp [List.filter_cons, h]

theorem searchWith_eq (caseTable : Char → Char) (chunks : List GoString)
    (catalog : Catalog) (library : Library) :
    searchWith caseTable chunks catalog library =
      ((allSources catalog).filter (fun s => matchesAllB caseTable chunks s.Name),
       (allCollections library).filter (fun c => matchesAllB caseTable chunks c.Name)) := by
  simp [searchWith, originLoop_eq, collectionLoop_eq, allSources, allCollections]

theorem searchChunks_eq_map (caseTable : Char → Char) (q : GoString) :
    searchChunks caseTable q =
      (strings.Split (strings.ToLower caseTable q) " ".toList).map
        (fun chunk => strings.Trim chunk " \t".toList) := by
  unfold searchChunks
  generalize strings.Split (strings.ToLower caseTable q) " ".toList = l
  have key : ∀ (l acc : List GoString),
      l.foldl (fun chunks chunk => chunks ++ [strings.Trim chunk " \t".toList]) acc =
        acc ++ l.map (fun chunk => strings.Trim chunk " \t".toList) := by
    intro l
    induction l with
    | nil => intro acc; simp
    | cons a rest ih =>
      intro acc
      rw [List.foldl_cons, ih, List.map_cons, List.append_assoc]
      rfl
  simpa using key l []

theorem tokenize_eq_searchChunks (caseTable : Char → Char) (q : GoString) :
    tokenize caseTable q = searchChunks caseTable q :=
  (searchChunks_eq_map caseTable q).symm

theorem splitLoop_space_cons (c : Char) (cs cur : GoString) :
    strings.splitLoop [' '] (c :: cs) 0 cur =
      if c = ' ' then cur.reverse :: strings.splitLoop [' '] cs 0 []
      else strings.splitLoop [' '] cs 0 (c :: cur) := by
  rw [strings.splitLoop]
  by_cases h : c = ' '
  · subst h
    simp [List.isPrefixOf]
  · have h2 : ¬ (' ' = c) := fun e => h e.symm
    simp [List.isPrefixOf, h, h2]

theorem splitLoop_space_ne_nil (s cur : GoString) :
    strings.splitLoop [' '] s 0 cur ≠ [] := by
  induction s generalizing cur with
  | nil => simp [strings.splitLoop]
  | cons c cs ih =>
    rw [splitLoop_space_cons]
    split
    · simp
    · exact ih _

theorem splitLoop_space_mem (s cur : GoString) :
    ∀ p ∈ strings.splitLoop [' '] s 0 cur, ∀ x ∈ p, x ∈ cur ∨ (x ∈ s ∧ x ≠ ' ') := by
  induction s generalizing cur with
  | nil =>
    intro p hp x hx
    simp [strings.splitLoop] at hp
    subst hp
    exact Or.inl (List.mem_reverse.mp hx)
  | cons c cs ih =>
    intro p hp x hx
    rw [splitLoop_space_cons] at hp
    by_cases h : c = ' '
    · rw [if_pos h] at hp
      rcases List.mem_cons.mp hp with hp | hp
      · subst hp
        exact Or.inl (List.mem_reverse.mp hx)
      · rcases ih [] p hp x hx with h1 | h1
        · simp at h1
        · exact Or.inr ⟨List.mem_cons_of_mem _ h1.1, h1.2⟩
    · rw [if_neg h] at hp
      rcases ih (c :: cur) p hp x hx with h1 | h1
      · rcases List.mem_cons.mp h1 with h2 | h2
        · subst h2
          exact Or.inr ⟨List.mem_cons_self _ _, h⟩
        · exact Or.inl h2
      · exact Or.inr ⟨List.mem_cons_of_mem _ h1.1, h1.2⟩

theorem Split_space_eq (s : GoString) :
    strings.Split s " ".toList = strings.splitLoop [' '] s 0 [] := by
  simp [strings.Split]

theorem Split_space_mem (s : GoString) :
    ∀ p ∈ strings.Split s " ".toList, ∀ x ∈ p, x ∈ s ∧ x ≠ ' ' := by
  intro p hp x hx
  rw [Split_space_eq] at hp
  rcases splitLoop_space_mem s [] p hp x hx with h | h
  · simp at h
  · exact h

theorem searchChunks_ne_nil (caseTable : Char → Char) (q : GoString) :
    searchChunks caseTable q ≠ [] := by
  rw [searchChunks_eq_map, Split_space_eq]
  intro h
  exact splitLoop_space_ne_nil _ _ (List.map_eq_nil_iff.mp h)

theorem matchesAllB_filter_nonempty (caseTable : Char → Char) (chunks : List GoString)
    (name : GoString) :
    matchesAllB caseTable (chunks.filter (fun chunk => decide (chunk ≠ []))) name =
      matchesAllB caseTable chunks name := by
  unfold matchesAllB
  rw [Bool.eq_iff_iff, List.all_eq_true, List.all_eq_true]
  constructor
  · intro h t ht
    by_cases ht0 : t = []
    · subst ht0
      rw [decide_eq_true_eq]
      exact Index_nil _
    · exact h t (List.mem_filter.mpr ⟨ht, by simpa using ht0⟩)
  · intro h t ht
    exact h t (List.mem_filter.mp ht).1

theorem matchesAllB_of_all_nil (caseTable : Char → Char) (chunks : List GoString)
    (name : GoString) (h : ∀ chunk ∈ chunks, chunk = []) :
    matchesAllB caseTable chunks name = true := by
  unfold matchesAllB
  rw [List.all_eq_true]
  intro t ht
  rw [h t ht, decide_eq_true_eq]
  exact Index_nil _

theorem ToLower_whitespace (caseTable : Char → Char) (q : GoString)
    (h : ∀ c ∈ q, c = ' ' ∨ c = '\t') : strings.ToLower caseTable q = q := by
  unfold strings.ToLower
  induction q with
  | nil => rfl
  | cons c cs ih =>
    have hc : unicode.ToLower caseTable c = c := by
      rcases h c (List.mem_cons_self _ _) with hc | hc <;> subst hc <;> rfl
    rw [List.map_cons, hc, ih (fun x hx => h x (List.mem_cons_of_mem _ hx))]

theorem Trim_whitespace (p : GoString) (h : ∀ c ∈ p, c = ' ' ∨ c = '\t') :
    strings.Trim p " \t".toList = [] := by
  have h1 : strings.TrimLeft p " \t".toList = [] := by
    unfold strings.TrimLeft
    rw [List.dropWhile_eq_nil_iff]
    intro c hc
    rcases h c hc with e | e <;> subst e <;> decide
  unfold strings.Trim
  rw [h1]
  rfl

theorem searchChunks_whitespace (caseTable : Char → Char) (q : GoString)
    (h : ∀ c ∈ q, c = ' ' ∨ c = '\t') :
    ∀ chunk ∈ searchChunks caseTable q, chunk = [] := by
  intro chunk hchunk
  rw [searchChunks_eq_map, ToLower_whitespace caseTable q h] at hchunk
  obtain ⟨p, hp, rfl⟩ := List.mem_map.mp hchunk
  exact Trim_whitespace p (fun c hc => h c (Split_space_mem q p hp c hc).1)

theorem ToLower_upper (caseTable : Char → Char) (n : Nat) (h1 : 65 ≤ n) (h2 : n ≤ 90) :
    unicode.ToLower caseTable (unicode.ToLower caseTable (Char.ofNat n)) =
      unicode.ToLower caseTable (Char.ofNat n) := by
  interval_cases n <;> rfl

theorem ToLower_idem (caseTable : Char → Char)
    (h : ∀ c : Char, 127 < c.toNat → unicode.ToLower caseTable (caseTable c) = caseTable c)
    (c : Char) :
    unicode.ToLower caseTable (unicode.ToLower caseTable c) = unicode.ToLower caseTable c := by
  by_cases h1 : c.toNat ≤ 127
  · by_cases h2 : 'A'.toNat ≤ c.toNat ∧ c.toNat ≤ 'Z'.toNat
    · have hc := ToLower_upper caseTable c.toNat h2.1 h2.2
      rwa [Char.ofNat_toNat] at hc
    · have e : unicode.ToLower caseTable c = c := by
        unfold unicode.ToLower
        rw [if_pos h1, if_neg h2]
      rw [e, e]
  · have e : unicode.ToLower caseTable c = caseTable c := by
      unfold unicode.ToLower
      rw [if_neg h1]
    rw [e]
    exact h c (by omega)

theorem TrimRight_eq_rdropWhile (s cutset : GoString) :
    strings.TrimRight s cutset = s.rdropWhile (fun c => cutset.contains c) := rfl

theorem Trim_sublist (s cutset : GoString) : (strings.Trim s cutset).Sublist s := by
  unfold strings.Trim strings.TrimLeft
  rw [TrimRight_eq_rdropWhile]
  exact (List.rdropWhile_prefix _ _).sublist.trans (List.dropWhile_suffix _).sublist

theorem Trim_idem (s cutset : GoString) :
    strings.Trim (strings.Trim s cutset) cutset = strings.Trim s cutset := by
  unfold strings.Trim strings.TrimLeft
  simp only [TrimRight_eq_rdropWhile]
  generalize hd : List.dropWhile (fun c => cutset.contains c) s = d
  generalize hr : List.rdropWhile (fun c => cutset.contains c) d = r
  have hleft : List.dropWhile (fun c => cutset.contains c) r = r := by
    cases r with
    | nil => rfl
    | cons x r' =>
      have hpre : (x :: r') <+: d := hr ▸ List.rdropWhile_prefix _ _
      obtain ⟨t, ht⟩ := hpre
      have hne : List.dropWhile (fun c => cutset.contains c) s ≠ [] := by
        rw [hd, ← ht]
        simp
      have hx := List.head_dropWhile_not (fun c => cutset.contains c) s hne
      have hhead : (List.dropWhile (fun c => cutset.contains c) s).head hne = x := by
        simp only [hd, ← ht]
        rfl
      rw [hhead] at hx
      refine List.dropWhile_cons_of_neg ?_
      show ¬ (cutset.contains x = true)
      rw [hx]
      exact Bool.false_ne_true
  rw [hleft, ← hr]
  exact List.rdropWhile_idempotent _ _

theorem mem_Join (l : List GoString) (sep : GoString) (x : Char)
    (hx : x ∈ strings.Join l sep) : x ∈ sep ∨ ∃ p ∈ l, x ∈ p := by
  induction l with
  | nil => simp [strings.Join] at hx
  | cons a rest ih =>
    cases rest with
    | nil =>
      simp only [strings.Join] at hx
      exact Or.inr ⟨a, List.mem_cons_self _ _, hx⟩
    | cons b rest' =>
      simp only [strings.Join, List.mem_append] at hx
      rcases hx with (hx | hx) | hx
      · exact Or.inr ⟨a, List.mem_cons_self _ _, hx⟩
      · exact Or.inl hx
      · rcases ih hx with h | ⟨p, hp, hxp⟩
        · exact Or.inl h
        · exact Or.inr ⟨p, List.mem_cons_of_mem _ hp, hxp⟩

theorem splitLoop_space_free (a cur : GoString) (ha : ' ' ∉ a) :
    strings.splitLoop [' '] a 0 cur = [cur.reverse ++ a] := by
  induction a generalizing cur with
  | nil => simp [strings.splitLoop]
  | cons c cs ih =>
    have hc : c ≠ ' ' := fun e => ha (e ▸ List.mem_cons_self _ _)
    rw [splitLoop_space_cons, if_neg hc, ih _ (fun h => ha (List.mem_cons_of_mem _ h))]
    simp

theorem splitLoop_space_append (a r cur : GoString) (ha : ' ' ∉ a) :
    strings.splitLoop [' '] (a ++ ' ' :: r) 0 cur =
      (cur.reverse ++ a) :: strings.splitLoop [' '] r 0 [] := by
  induction a generalizing cur with
  | nil =>
    rw [List.nil_append, splitLoop_space_cons, if_pos rfl]
    simp
  | cons c cs ih =>
    have hc : c ≠ ' ' := fun e => ha (e ▸ List.mem_cons_self _ _)
    rw [List.cons_append, splitLoop_space_cons, if_neg hc,
      ih _ (fun h => ha (List.mem_cons_of_mem _ h))]
    simp

theorem Split_Join_space (l : List GoString) (hne : l ≠ []) (hl : ∀ p ∈ l, ' ' ∉ p) :
    strings.Split (strings.Join l " ".toList) " ".toList = l := by
  rw [Split_space_eq]
  induction l with
  | nil => exact absurd rfl hne
  | cons a rest ih =>
    cases rest with
    | nil =>
      simp only [strings.Join]
      rw [splitLoop_space_free a [] (hl a (List.mem_cons_self _ _))]
      simp
    | cons b rest' =>
      have e : strings.Join (a :: b :: rest') " ".toList =
          a ++ ' ' :: strings.Join (b :: rest') " ".toList := by
        simp [strings.Join]
      rw [e, splitLoop_space_append a _ [] (hl a (List.mem_cons_self _ _)),
        ih (by simp) (fun p hp => hl p (List.mem_cons_of_mem _ hp))]
      simp

theorem searchChunks_Join (caseTable : Char → Char)
    (hidem : ∀ c : Char, unicode.ToLower caseTable (unicode.ToLower caseTable c) =
      unicode.ToLower caseTable c)
    (q : GoString) :
    searchChunks caseTable (strings.Join (searchChunks caseTable q) " ".toList) =
      searchChunks caseTable q := by
  have hmem : ∀ p ∈ searchChunks caseTable q, ∀ x ∈ p,
      x ≠ ' ' ∧ unicode.ToLower caseTable x = x := by
    intro p hp x hx
    rw [searchChunks_eq_map] at hp
    obtain ⟨p0, hp0, rfl⟩ := List.mem_map.mp hp
    have hx0 := Split_space_mem _ p0 hp0 x ((Trim_sublist p0 _).subset hx)
    refine ⟨hx0.2, ?_⟩
    obtain ⟨y, _, rfl⟩ := List.mem_map.mp hx0.1
    exact hidem y
  have hlower : strings.ToLower caseTable (strings.Join (searchChunks caseTable q) " ".toList) =
      strings.Join (searchChunks caseTable q) " ".toList := by
    unfold strings.ToLower
    conv_rhs => rw [← List.map_id (strings.Join (searchChunks caseTable q) " ".toList)]
    apply List.map_congr_left
    intro x hx
    rcases mem_Join _ _ x hx with h | ⟨p, hp, hxp⟩
    · have : x = ' ' := by simpa using h
      subst this
      rfl
    · exact (hmem p hp x hxp).2
  rw [searchChunks_eq_map caseTable (strings.Join _ _), hlower,
    Split_Join_space _ (searchChunks_ne_nil caseTable q)
      (fun p hp h => (hmem p hp ' ' h).1 rfl)]
  conv_rhs => rw [← List.map_id (searchChunks caseTable q)]
  apply List.map_congr_left
  intro p hp
  rw [searchChunks_eq_map] at hp
  obtain ⟨p0, _, rfl⟩ := List.mem_map.mp hp
  exact Trim_idem p0 _

theorem latinTable_stable (c : Char) (hc : 127 < c.toNat) :
    unicode.ToLower latinTable (latinTable c) = latinTable c := by
  unfold latinTable
  by_cases h : c = 'É'
  · rw [if_pos h]
    rfl
  · rw [if_neg h]
    unfold unicode.ToLower
    rw [if_neg (by omega)]
    simp only [latinTable, if_neg h]

/-! ## Lemmas on the set accumulator and the walk of `getStats` -/

theorem set_Add_nodup (s : set.Interface) (item : GoString) (h : s.Nodup) :
    (set.Add s item).Nodup := by
  unfold set.Add
  split
  · exact h
  · rename_i hnot
    rw [List.nodup_append]
    refine ⟨h, List.nodup_singleton _, ?_⟩
    intro x hx hx2
    rw [List.mem_singleton] at hx2
    exact hnot (hx2 ▸ hx)

theorem set_Add_toFinset (s : set.Interface) (item : GoString) :
    (set.Add s item).toFinset = s.toFinset ∪ {item} := by
  unfold set.Add
  ext x
  split
  · rename_i hmem
    simp only [List.mem_toFinset, Finset.mem_union, Finset.mem_singleton]
    constructor
    · exact Or.inl
    · rintro (h | h)
      · exact h
      · exact h ▸ hmem
  · simp

theorem metricLoop_spec (keys : List GoString) (metricSet : set.Interface)
    (h : metricSet.Nodup) :
    (metricLoop keys metricSet).Nodup ∧
      (metricLoop keys metricSet).toFinset = metricSet.toFinset ∪ keys.toFinset := by
  induction keys generalizing metricSet with
  | nil => simp [metricLoop, h]
  | cons key rest ih =>
    unfold metricLoop
    obtain ⟨h1, h2⟩ := ih (set.Add metricSet key) (set_Add_nodup _ _ h)
    refine ⟨h1, ?_⟩
    rw [h2, set_Add_toFinset]
    ext x
    simp only [Finset.mem_union, Finset.mem_singleton, List.mem_toFinset, List.mem_cons]
    tauto

theorem statsSourceLoop_spec (l : List (GoString × Source))
    (sets : set.Interface × set.Interface) (h1 : sets.1.Nodup) (h2 : sets.2.Nodup) :
    (statsSourceLoop l sets).1.Nodup ∧ (statsSourceLoop l sets).2.Nodup ∧
      (statsSourceLoop l sets).1.toFinset = sets.1.toFinset ∪ (l.map Prod.fst).toFinset ∧
      (statsSourceLoop l sets).2.toFinset =
        sets.2.toFinset ∪ ((l.map (fun s => s.2.Metrics)).flatten).toFinset := by
  induction l generalizing sets with
  | nil => simp [statsSourceLoop, h1, h2]
  | cons p rest ih =>
    obtain ⟨key, source⟩ := p
    obtain ⟨sourceSet, metricSet⟩ := sets
    unfold statsSourceLoop
    obtain ⟨m1, m2⟩ := metricLoop_spec source.Metrics metricSet h2
    obtain ⟨r1, r2, r3, r4⟩ :=
      ih (set.Add sourceSet key, metricLoop source.Metrics metricSet)
        (set_Add_nodup _ _ h1) m1
    refine ⟨r1, r2, ?_, ?_⟩
    · rw [r3]
      simp only [set_Add_toFinset]
      ext x
      simp only [Finset.mem_union, Finset.mem_singleton, List.mem_toFinset, List.map_cons,
        List.mem_cons]
      tauto
    · rw [r4]
      simp only [m2]
      ext x
      simp only [Finset.mem_union, List.mem_toFinset, List.map_cons, List.flatten_cons,
        List.mem_append]
      tauto

theorem statsOriginLoop_spec (l : List (GoString × Origin))
    (sets : set.Interface × set.Interface) (h1 : sets.1.Nodup) (h2 : sets.2.Nodup) :
    (statsOriginLoop l sets).1.Nodup ∧ (statsOriginLoop l sets).2.Nodup ∧
      (statsOriginLoop l sets).1.toFinset =
        sets.1.toFinset ∪ ((l.map (fun o => o.2.Sources.map Prod.fst)).flatten).toFinset ∧
      (statsOriginLoop l sets).2.toFinset =
        sets.2.toFinset ∪
          ((l.map (fun o => (o.2.Sources.map (fun s => s.2.Metrics)).flatten)).flatten).toFinset := by
  induction l generalizing sets with
  | nil => simp [statsOriginLoop, h1, h2]
  | cons p rest ih =>
    obtain ⟨key, origin⟩ := p
    unfold statsOriginLoop
    obtain ⟨s1, s2, s3, s4⟩ := statsSourceLoop_spec origin.Sources sets h1 h2
    obtain ⟨r1, r2, r3, r4⟩ := ih (statsSourceLoop origin.Sources sets) s1 s2
    refine ⟨r1, r2, ?_, ?_⟩
    · rw [r3, s3]
      ext x
      simp only [Finset.mem_union, List.mem_toFinset, List.map_cons, List.flatten_cons,
        List.mem_append]
      tauto
    · rw [r4, s4]
      ext x
      simp only [Finset.mem_union, List.mem_toFinset, List.map_cons, List.flatten_cons,
        List.mem_append]
      tauto

theorem matchesAllB_eq_decide_nonEmpty (caseTable : Char → Char) (q name : GoString) :
    matchesAllB caseTable (searchChunks caseTable q) name =
      decide (matchesAll caseTable name (nonEmptyTokens caseTable q)) := by
  rw [Bool.eq_iff_iff, decide_eq_true_iff, nonEmptyTokens, tokenize_eq_searchChunks,
    ← matchesAllB_iff, matchesAllB_filter_nonempty]

theorem tokenSet_eq_nil (caseTable : Char → Char) (q : GoString)
    (h : tokenSet caseTable q = []) : q = [] := by
  by_contra hq
  rw [tokenSet, if_neg hq, tokenize_eq_searchChunks] at h
  exact searchChunks_ne_nil caseTable q h

/-! ## The claims on `serveBrowseSearch` -/

/-- Claim C1: for a non-empty query, a source (resp. a collection) is in the
result of `serveBrowseSearch` exactly when it is one of the catalog's sources
(resp. the library's collections) and every token of the tokenized query is a
substring of its lowercased name; the inner loop with its `goto` exit decides
the plain all-tokens-match predicate. -/
theorem search_iff_all_tokens (caseTable : Char → Char) (catalog : Catalog) (library : Library)
    (q : GoString) (hq : q ≠ []) :
    (∀ source : Source, source ∈ (serveBrowseSearch caseTable catalog library q).Sources ↔
      source ∈ allSources catalog ∧
        matchesAll caseTable source.Name (tokenize caseTable q)) ∧
    (∀ collection : Collection,
      collection ∈ (serveBrowseSearch caseTable catalog library q).Collections ↔
        collection ∈ allCollections library ∧
          matchesAll caseTable collection.Name (tokenize caseTable q)) ∧
    (∀ (name : GoString) (chunks : List GoString),
      chunkLoop caseTable name chunks = true ↔ matchesAll caseTable name chunks) := by
  refine ⟨?_, ?_, ?_⟩
  · intro source
    simp only [serveBrowseSearch, if_pos hq, searchWith_eq, tokenize_eq_searchChunks]
    rw [List.mem_filter, matchesAllB_iff]
  · intro collection
    simp only [serveBrowseSearch, if_pos hq, searchWith_eq, tokenize_eq_searchChunks]
    rw [List.mem_filter, matchesAllB_iff]
  · intro name chunks
    rw [chunkLoop_eq_matchesAllB, matchesAllB_iff]

/-- The query "cpu load" over the sources "CPU Load Avg" and "Memory" and no
collection keeps exactly "CPU Load Avg", with a count of one. -/
theorem search_iff_all_tokens_witness :
    "cpu load".toList ≠ [] ∧
    ((∀ source : Source,
        source ∈ (serveBrowseSearch id cpuCatalog emptyLibrary "cpu load".toList).Sources ↔
          source ∈ allSources cpuCatalog ∧
            matchesAll id source.Name (tokenize id "cpu load".toList)) ∧
      (∀ collection : Collection,
        collection ∈ (serveBrowseSearch id cpuCatalog emptyLibrary "cpu load".toList).Collections ↔
          collection ∈ allCollections emptyLibrary ∧
            matchesAll id collection.Name (tokenize id "cpu load".toList)) ∧
      (∀ (name : GoString) (chunks : List GoString),
        chunkLoop id name chunks = true ↔ matchesAll id name chunks)) ∧
    (serveBrowseSearch id cpuCatalog emptyLibrary "cpu load".toList).Sources.map Source.Name =
      ["CPU Load Avg".toList] ∧
    (serveBrowseSearch id cpuCatalog emptyLibrary "cpu load".toList).Collections.length = 0 ∧
    (serveBrowseSearch id cpuCatalog emptyLibrary "cpu load".toList).Count = 1 :=
  ⟨by decide, search_iff_all_tokens id cpuCatalog emptyLibrary "cpu load".toList (by decide),
    by decide, by decide, by decide⟩

/-- Claim C2: with the empty query, whatever the catalog and the library hold,
`serveBrowseSearch` yields no source, no collection and a count of zero. -/
theorem search_empty_query (caseTable : Char → Char) (catalog : Catalog) (library : Library) :
    (serveBrowseSearch caseTable catalog library "".toList).Sources = [] ∧
    (serveBrowseSearch caseTable catalog library "".toList).Collections = [] ∧
    (serveBrowseSearch caseTable catalog library "".toList).Count = 0 :=
  ⟨rfl, rfl, rfl⟩

/-- Claim C3, as stated, fails: the query made of one space is not the empty
string, so the guard lets it through; its two tokens are empty and the source
"Memory" is kept, with a count of one. -/
theorem search_blank_query_counterexample :
    (serveBrowseSearch id (catalogOfNames ["Memory".toList]) emptyLibrary " ".toList).Sources.map
        Source.Name = ["Memory".toList] ∧
    (serveBrowseSearch id (catalogOfNames ["Memory".toList]) emptyLibrary " ".toList).Count = 1 := by
  decide

/-- Claim C3, amended: for a query made only of spaces and tabs, the result is
empty with a count of zero when the query is the empty string itself, and is
the whole corpus (every source, every collection, count their total) when it
is not: the emptiness test is on the raw query. -/
theorem search_blank_query (caseTable : Char → Char) (catalog : Catalog) (library : Library)
    (q : GoString) (hblank : ∀ c ∈ q, c = ' ' ∨ c = '\t') :
    (q = [] →
      (serveBrowseSearch caseTable catalog library q).Sources = [] ∧
      (serveBrowseSearch caseTable catalog library q).Collections = [] ∧
      (serveBrowseSearch caseTable catalog library q).Count = 0) ∧
    (q ≠ [] →
      (serveBrowseSearch caseTable catalog library q).Sources = allSources catalog ∧
      (serveBrowseSearch caseTable catalog library q).Collections = allCollections library ∧
      (serveBrowseSearch caseTable catalog library q).Count =
        (allSources catalog).length + (allCollections library).length) := by
  constructor
  · intro hq
    subst hq
    exact ⟨rfl, rfl, rfl⟩
  · intro hq
    have hs : (allSources catalog).filter
        (fun s => matchesAllB caseTable (searchChunks caseTable q) s.Name) = allSources catalog :=
      List.filter_eq_self.mpr (fun s _ =>
        matchesAllB_of_all_nil caseTable _ s.Name (searchChunks_whitespace caseTable q hblank))
    have hc : (allCollections library).filter
        (fun c => matchesAllB caseTable (searchChunks caseTable q) c.Name) =
          allCollections library :=
      List.filter_eq_self.mpr (fun c _ =>
        matchesAllB_of_all_nil caseTable _ c.Name (searchChunks_whitespace caseTable q hblank))
    simp only [serveBrowseSearch, if_pos hq, searchWith_eq, hs, hc, and_self]

/-- The amended claim C3 at the empty query and at the query of a tab and a
space, over the catalog of "CPU Load Avg" and "Memory". -/
theorem search_blank_query_witness :
    ((∀ c ∈ "".toList, c = ' ' ∨ c = '\t') ∧ "".toList = [] ∧
      (serveBrowseSearch id cpuCatalog emptyLibrary "".toList).Sources = [] ∧
      (serveBrowseSearch id cpuCatalog emptyLibrary "".toList).Collections = [] ∧
      (serveBrowseSearch id cpuCatalog emptyLibrary "".toList).Count = 0) ∧
    ((∀ c ∈ "\t ".toList, c = ' ' ∨ c = '\t') ∧ "\t ".toList ≠ [] ∧
      (serveBrowseSearch id cpuCatalog emptyLibrary "\t ".toList).Sources = allSources cpuCatalog ∧
      (serveBrowseSearch id cpuCatalog emptyLibrary "\t ".toList).Collections =
        allCollections emptyLibrary ∧
      (serveBrowseSearch id cpuCatalog emptyLibrary "\t ".toList).Count =
        (allSources cpuCatalog).length + (allCollections emptyLibrary).length) :=
  ⟨⟨by decide, rfl,
      (search_blank_query id cpuCatalog emptyLibrary "".toList (by decide)).1 rfl⟩,
    ⟨by decide, by decide,
      (search_blank_query id cpuCatalog emptyLibrary "\t ".toList (by decide)).2 (by decide)⟩⟩

/-- Claim C4: matching against the empty token sequence keeps no entity.  The
handler is given an empty token set only by the empty query, and then its
guard skips the matching loops: no source and no collection is in the result
and the count is zero.  Every other query is matched against at least one
chunk. -/
theorem match_no_tokens (caseTable : Char → Char) (catalog : Catalog) (library : Library)
    (q : GoString) (hT : tokenSet caseTable q = []) :
    (∀ source : Source, source ∉ (serveBrowseSearch caseTable catalog library q).Sources) ∧
    (∀ collection : Collection,
      collection ∉ (serveBrowseSearch caseTable catalog library q).Collections) ∧
    (serveBrowseSearch caseTable catalog library q).Count = 0 ∧
    (∀ q2 : GoString, q2 ≠ [] → searchChunks caseTable q2 ≠ []) := by
  have hq := tokenSet_eq_nil caseTable q hT
  subst hq
  refine ⟨?_, ?_, rfl, fun q2 _ => searchChunks_ne_nil caseTable q2⟩
  · intro source h
    exact List.not_mem_nil _ h
  · intro collection h
    exact List.not_mem_nil _ h

/-- Claim C4 at the empty query over the catalog of "CPU Load Avg" and
"Memory": the token set is empty and nothing is kept. -/
theorem match_no_tokens_witness :
    tokenSet id "".toList = [] ∧
    (∀ source : Source,
      source ∉ (serveBrowseSearch id cpuCatalog emptyLibrary "".toList).Sources) ∧
    (∀ collection : Collection,
      collection ∉ (serveBrowseSearch id cpuCatalog emptyLibrary "".toList).Collections) ∧
    (serveBrowseSearch id cpuCatalog emptyLibrary "".toList).Count = 0 ∧
    (∀ q2 : GoString, q2 ≠ [] → searchChunks id q2 ≠ []) :=
  ⟨rfl, match_no_tokens id cpuCatalog emptyLibrary "".toList rfl⟩

/-- Claim C8: for a non-empty query, the sources kept are the catalog's
sources, origin after origin, filtered by the all-tokens-match test, and the
collections kept are the library's collections filtered by the same test; both
are sublists of the corpus in its walking order. -/
theorem search_is_filter (caseTable : Char → Char) (catalog : Catalog) (library : Library)
    (q : GoString) (hq : q ≠ []) :
    (serveBrowseSearch caseTable catalog library q).Sources =
      (allSources catalog).filter
        (fun s => matchesAllB caseTable (searchChunks caseTable q) s.Name) ∧
    (serveBrowseSearch caseTable catalog library q).Collections =
      (allCollections library).filter
        (fun c => matchesAllB caseTable (searchChunks caseTable q) c.Name) ∧
    ((serveBrowseSearch caseTable catalog library q).Sources).Sublist (allSources catalog) ∧
    ((serveBrowseSearch caseTable catalog library q).Collections).Sublist
      (allCollections library) := by
  simp only [serveBrowseSearch, if_pos hq, searchWith_eq, true_and]
  exact ⟨List.filter_sublist _, List.filter_sublist _⟩

/-- Claim C8 at the query "m" over the catalog of "CPU Load Avg" and "Memory". -/
theorem search_is_filter_witness :
    "m".toList ≠ [] ∧
    (serveBrowseSearch id cpuCatalog emptyLibrary "m".toList).Sources =
      (allSources cpuCatalog).filter
        (fun s => matchesAllB id (searchChunks id "m".toList) s.Name) ∧
    (serveBrowseSearch id cpuCatalog emptyLibrary "m".toList).Collections =
      (allCollections emptyLibrary).filter
        (fun c => matchesAllB id (searchChunks id "m".toList) c.Name) ∧
    ((serveBrowseSearch id cpuCatalog emptyLibrary "m".toList).Sources).Sublist
      (allSources cpuCatalog) ∧
    ((serveBrowseSearch id cpuCatalog emptyLibrary "m".toList).Collections).Sublist
      (allCollections emptyLibrary) :=
  ⟨by decide, search_is_filter id cpuCatalog emptyLibrary "m".toList (by decide)⟩

/-- Claim C10: an empty token is a substring of every name, so for a non-empty
query the sources (resp. collections) kept by `serveBrowseSearch` are exactly
the catalog's sources (resp. the library's collections), in walking order,
whose lowercased name contains every non-empty token of the tokenized query,
and the count is their total.  The queries "a  b" and "a b" keep the same
sources and collections, also when the two requests enumerate the maps in
different orders. -/
theorem search_ignores_empty_chunks (caseTable : Char → Char) (catalog : Catalog)
    (library : Library) (q : GoString) (hq : q ≠ []) :
    (∀ name : GoString, matchesAll caseTable name [[]] ∧ chunkLoop caseTable name [[]] = true) ∧
    (serveBrowseSearch caseTable catalog library q).Sources =
      (allSources catalog).filter
        (fun s => decide (matchesAll caseTable s.Name (nonEmptyTokens caseTable q))) ∧
    (serveBrowseSearch caseTable catalog library q).Collections =
      (allCollections library).filter
        (fun c => decide (matchesAll caseTable c.Name (nonEmptyTokens caseTable q))) ∧
    (serveBrowseSearch caseTable catalog library q).Count =
      ((allSources catalog).filter
        (fun s => decide (matchesAll caseTable s.Name (nonEmptyTokens caseTable q)))).length +
      ((allCollections library).filter
        (fun c => decide (matchesAll caseTable c.Name (nonEmptyTokens caseTable q)))).length ∧
    (∀ (catalog2 : Catalog) (library2 : Library),
      (allSources catalog).Perm (allSources catalog2) →
      (allCollections library).Perm (allCollections library2) →
      ((serveBrowseSearch caseTable catalog library "a  b".toList).Sources).Perm
        (serveBrowseSearch caseTable catalog2 library2 "a b".toList).Sources ∧
      ((serveBrowseSearch caseTable catalog library "a  b".toList).Collections).Perm
        (serveBrowseSearch caseTable catalog2 library2 "a b".toList).Collections ∧
      (serveBrowseSearch caseTable catalog library "a  b".toList).Count =
        (serveBrowseSearch caseTable catalog2 library2 "a b".toList).Count) := by
  have hsrc : ∀ (cat : Catalog) (lib : Library) (q1 : GoString), q1 ≠ [] →
      (serveBrowseSearch caseTable cat lib q1).Sources =
        (allSources cat).filter
          (fun s => decide (matchesAll caseTable s.Name (nonEmptyTokens caseTable q1))) := by
    intro cat lib q1 h1
    simp only [serveBrowseSearch, if_pos h1, searchWith_eq]
    exact List.filter_congr (fun s _ => matchesAllB_eq_decide_nonEmpty caseTable q1 s.Name)
  have hcol : ∀ (cat : Catalog) (lib : Library) (q1 : GoString), q1 ≠ [] →
      (serveBrowseSearch caseTable cat lib q1).Collections =
        (allCollections lib).filter
          (fun c => decide (matchesAll caseTable c.Name (nonEmptyTokens caseTable q1))) := by
    intro cat lib q1 h1
    simp only [serveBrowseSearch, if_pos h1, searchWith_eq]
    exact List.filter_congr (fun c _ => matchesAllB_eq_decide_nonEmpty caseTable q1 c.Name)
  have hcount : ∀ (cat : Catalog) (lib : Library) (q1 : GoString),
      (serveBrowseSearch caseTable cat lib q1).Count =
        (serveBrowseSearch caseTable cat lib q1).Sources.length +
          (serveBrowseSearch caseTable cat lib q1).Collections.length := fun _ _ _ => rfl
  refine ⟨?_, hsrc catalog library q hq, hcol catalog library q hq, ?_, ?_⟩
  · intro name
    have hm : matchesAll caseTable name [[]] := by
      intro t ht
      rw [List.mem_singleton.mp ht]
      exact List.nil_infix
    exact ⟨hm, by rw [chunkLoop_eq_matchesAllB, matchesAllB_iff]; exact hm⟩
  · rw [hcount, hsrc catalog library q hq, hcol catalog library q hq]
  · intro catalog2 library2 hs hc
    have e1 : "a  b".toList ≠ [] := by decide
    have e2 : "a b".toList ≠ [] := by decide
    have ht : nonEmptyTokens caseTable "a  b".toList = nonEmptyTokens caseTable "a b".toList :=
      rfl
    have p1 : ((serveBrowseSearch caseTable catalog library "a  b".toList).Sources).Perm
        (serveBrowseSearch caseTable catalog2 library2 "a b".toList).Sources := by
      rw [hsrc catalog library _ e1, hsrc catalog2 library2 _ e2, ht]
      exact hs.filter _
    have p2 : ((serveBrowseSearch caseTable catalog library "a  b".toList).Collections).Perm
        (serveBrowseSearch caseTable catalog2 library2 "a b".toList).Collections := by
      rw [hcol catalog library _ e1, hcol catalog2 library2 _ e2, ht]
      exact hc.filter _
    refine ⟨p1, p2, ?_⟩
    rw [hcount, hcount, p1.length_eq, p2.length_eq]

/-- Claim C10 at the query "cpu  load" (two spaces) over the catalog of
"CPU Load Avg" and "Memory": the non-empty tokens are "cpu" and "load", and
exactly "CPU Load Avg" is kept; and the queries "a  b" and "a b" compared over
two enumerations of that catalog. -/
theorem search_ignores_empty_chunks_witness :
    ("cpu  load".toList ≠ [] ∧
      tokenize id "cpu  load".toList = ["cpu".toList, [], "load".toList] ∧
      nonEmptyTokens id "cpu  load".toList = ["cpu".toList, "load".toList] ∧
      (serveBrowseSearch id cpuCatalog emptyLibrary "cpu  load".toList).Sources =
        (allSources cpuCatalog).filter
          (fun s => decide (matchesAll id s.Name (nonEmptyTokens id "cpu  load".toList))) ∧
      (serveBrowseSearch id cpuCatalog emptyLibrary "cpu  load".toList).Sources.map Source.Name =
        ["CPU Load Avg".toList] ∧
      (serveBrowseSearch id cpuCatalog emptyLibrary "cpu  load".toList).Count = 1) ∧
    ((allSources cpuCatalog).Perm (allSources cpuCatalogReversed) ∧
      (allCollections emptyLibrary).Perm (allCollections emptyLibrary) ∧
      ((serveBrowseSearch id cpuCatalog emptyLibrary "a  b".toList).Sources).Perm
        (serveBrowseSearch id cpuCatalogReversed emptyLibrary "a b".toList).Sources ∧
      ((serveBrowseSearch id cpuCatalog emptyLibrary "a  b".toList).Collections).Perm
        (serveBrowseSearch id cpuCatalogReversed emptyLibrary "a b".toList).Collections ∧
      (serveBrowseSearch id cpuCatalog emptyLibrary "a  b".toList).Count =
        (serveBrowseSearch id cpuCatalogReversed emptyLibrary "a b".toList).Count) :=
  ⟨⟨by decide, by decide, by decide,
      (search_ignores_empty_chunks id cpuCatalog emptyLibrary "cpu  load".toList
        (by decide)).2.1,
      by decide, by decide⟩,
    ⟨List.Perm.swap _ _ [], List.Perm.refl _,
      (search_ignores_empty_chunks id cpuCatalog emptyLibrary "cpu  load".toList
        (by decide)).2.2.2.2 cpuCatalogReversed emptyLibrary (List.Perm.swap _ _ [])
        (List.Perm.refl _)⟩⟩

/-- Claim C7: the chunk builder of `serveBrowseSearch` is idempotent through
joining: joining the chunks of a query with single spaces and building the
chunks of the joined string gives the same chunks.  The case tables of
`unicode.ToLower` are a parameter, assumed to send every non-ASCII rune to a
rune that lowercasing leaves unchanged. -/
theorem tokenizer_idempotent (caseTable : Char → Char)
    (hTable : ∀ c : Char, 127 < c.toNat →
      unicode.ToLower caseTable (caseTable c) = caseTable c)
    (q : GoString) :
    searchChunks caseTable (strings.Join (searchChunks caseTable q) " ".toList) =
      searchChunks caseTable q :=
  searchChunks_Join caseTable (ToLower_idem caseTable hTable) q

/-- Claim C7 with the table that lowers only "É", at the query "É  Load\t x". -/
theorem tokenizer_idempotent_witness :
    (∀ c : Char, 127 < c.toNat → unicode.ToLower latinTable (latinTable c) = latinTable c) ∧
    searchChunks latinTable
        (strings.Join (searchChunks latinTable "É  Load\t x".toList) " ".toList) =
      searchChunks latinTable "É  Load\t x".toList :=
  ⟨latinTable_stable, tokenizer_idempotent latinTable latinTable_stable "É  Load\t x".toList⟩

/-! ## The claim on `getStats` -/

/-- Claim C5: `getStats` reports as `Sources` the number of distinct source
keys over all origins and as `Metrics` the number of distinct metric keys over
all sources of all origins; on the catalog
`{origin1: {sourceA: {m1,m2}}, origin2: {sourceA: {m2,m3}}}` these are 1 and 3. -/
theorem getStats_counts_distinct :
    (∀ (catalog : Catalog) (library : Library),
      (getStats catalog library).Sources = (sourceKeys catalog).toFinset.card ∧
      (getStats catalog library).Metrics = (metricKeys catalog).toFinset.card) ∧
    (getStats statsCatalog emptyLibrary).Sources = 1 ∧
    (getStats statsCatalog emptyLibrary).Metrics = 3 := by
  refine ⟨?_, by decide, by decide⟩
  intro catalog library
  obtain ⟨h1, h2, h3, h4⟩ :=
    statsOriginLoop_spec catalog.Origins (set.New, set.New) List.nodup_nil List.nodup_nil
  constructor
  · show (statsOriginLoop catalog.Origins (set.New, set.New)).1.length = _
    rw [← List.toFinset_card_of_nodup h1, h3]
    simp [set.New, sourceKeys]
  · show (statsOriginLoop catalog.Origins (set.New, set.New)).2.length = _
    rw [← List.toFinset_card_of_nodup h2, h4]
    simp [set.New, metricKeys]

/-! ## The claim on `serveBrowseCollection` -/

/-- Claim C6, as stated, fails: a resolved collection whose parent carries the
empty ID gets the empty string as parent marker. -/
theorem parent_marker_counterexample :
    (serveBrowseCollection "/browse/".toList
        (fun _ => .ok (Collection.mk "c1".toList "child".toList
          (some (Collection.mk [] "parent".toList none))))
        (fun collection _ => collection)
        "/browse/collections/c1".toList []).toOption.map collectionData.Parent = some [] := by
  decide

/-- Claim C6, amended: when the lookup succeeds, `serveBrowseCollection`
resolves the collection (filtered when the query is non-empty) and its parent
marker is the parent's ID when the collection has a parent and "null" when it
has none; the marker is therefore non-empty whenever the parent, if any, has a
non-empty ID. -/
theorem parent_marker (urlBrowsePath : GoString)
    (GetItem : GoString → Except HandlerError Collection)
    (FilterCollection : Collection → GoString → Collection)
    (path q : GoString) (item : Collection)
    (hitem : GetItem (strings.TrimPrefix path (urlBrowsePath ++ "collections/".toList)) =
      .ok item) :
    ∃ data : collectionData,
      serveBrowseCollection urlBrowsePath GetItem FilterCollection path q = .ok data ∧
      data.Collection = (if q ≠ [] then FilterCollection item q else item) ∧
      (∀ parent, data.Collection.Parent = some parent → data.Parent = parent.ID) ∧
      (data.Collection.Parent = none → data.Parent = "null".toList) ∧
      ((∀ parent, data.Collection.Parent = some parent → parent.ID ≠ []) →
        data.Parent ≠ []) := by
  unfold serveBrowseCollection
  simp only [hitem]
  generalize (if q ≠ [] then FilterCollection item q else item) = collection
  cases hp : collection.Parent with
  | none =>
    refine ⟨_, rfl, rfl, ?_, ?_, ?_⟩
    · intro parent h
      simp [hp] at h
    · intro _
      rfl
    · intro _
      simp
  | some parent =>
    refine ⟨_, rfl, rfl, ?_, ?_, ?_⟩
    · intro parent2 h
      simp only [hp, Option.some.injEq] at h
      rw [← h]
    · intro h
      simp [hp] at h
    · intro h
      exact h parent hp

/-- The amended claim C6 on a library holding the root collection "c0" and its
child "c1", at the path of "c1" with the query "x" and a filter that returns
its argument. -/
theorem parent_marker_witness :
    (fun id => if id = "c1".toList then
        Except.ok (Collection.mk "c1".toList "child".toList
          (some (Collection.mk "c0".toList "root".toList none)))
      else Except.error HandlerError.ErrNotExist : GoString → Except HandlerError Collection)
      (strings.TrimPrefix "/browse/collections/c1".toList
        ("/browse/".toList ++ "collections/".toList)) =
      .ok (Collection.mk "c1".toList "child".toList
        (some (Collection.mk "c0".toList "root".toList none))) ∧
    ∃ data : collectionData,
      serveBrowseCollection "/browse/".toList
        (fun id => if id = "c1".toList then
            Except.ok (Collection.mk "c1".toList "child".toList
              (some (Collection.mk "c0".toList "root".toList none)))
          else Except.error HandlerError.ErrNotExist)
        (fun collection _ => collection) "/browse/collections/c1".toList "x".toList = .ok data ∧
      data.Collection = (if "x".toList ≠ [] then
          (fun (collection : Collection) (_ : GoString) => collection)
            (Collection.mk "c1".toList "child".toList
              (some (Collection.mk "c0".toList "root".toList none))) "x".toList
        else Collection.mk "c1".toList "child".toList
          (some (Collection.mk "c0".toList "root".toList none))) ∧
      (∀ parent, data.Collection.Parent = some parent → data.Parent = parent.ID) ∧
      (data.Collection.Parent = none → data.Parent = "null".toList) ∧
      ((∀ parent, data.Collection.Parent = some parent → parent.ID ≠ []) →
        data.Parent ≠ []) :=
  ⟨rfl, parent_marker "/browse/".toList _ _ "/browse/collections/c1".toList "x".toList _ rfl⟩

/-! ## The claim on `serveBrowse` -/

/-- Claim C9: a request whose method is neither GET nor HEAD is answered 405
whatever its path, and no view handler is called; a GET or HEAD request whose
path is not "/", does not start with the collections prefix and is neither the
search path nor the browse root is answered 404, again with no view handler
called. -/
theorem serveBrowse_rejects (urlPrefix urlBrowsePath : GoString)
    (run : View → Option HandlerError) (method path : GoString) :
    (method ≠ "GET".toList → method ≠ "HEAD".toList →
      serveBrowse urlPrefix urlBrowsePath run method path =
        { status := 405, view := none, location := none }) ∧
    (method = "GET".toList ∨ method = "HEAD".toList →
      path ≠ "/".toList →
      strings.HasPrefix path (urlBrowsePath ++ "collections/".toList) = false →
      path ≠ urlBrowsePath ++ "search".toList →
      path ≠ urlBrowsePath →
      serveBrowse urlPrefix urlBrowsePath run method path =
        { status := 404, view := none, location := none }) := by
  constructor
  · intro h1 h2
    unfold serveBrowse
    rw [if_pos ⟨h1, h2⟩]
  · intro hm h1 h2 h3 h4
    have hm2 : ¬ (method ≠ "GET".toList ∧ method ≠ "HEAD".toList) := by
      rintro ⟨a, b⟩
      rcases hm with h | h
      · exact a h
      · exact b h
    unfold serveBrowse
    rw [if_neg hm2, if_neg h1]
    simp only [h2, Bool.false_eq_true, if_false, if_neg h3, if_neg h4]

/-- Claim C9 at POST on the search path and at GET on an unknown path, with
the browse root "/browse/" and view handlers that succeed. -/
theorem serveBrowse_rejects_witness :
    ("POST".toList ≠ "GET".toList ∧ "POST".toList ≠ "HEAD".toList ∧
      serveBrowse [] "/browse/".toList (fun _ => none) "POST".toList "/browse/search".toList =
        { status := 405, view := none, location := none }) ∧
    ("/browse/nothing".toList ≠ "/".toList ∧
      strings.HasPrefix "/browse/nothing".toList
        ("/browse/".toList ++ "collections/".toList) = false ∧
      serveBrowse [] "/browse/".toList (fun _ => none) "GET".toList "/browse/nothing".toList =
        { status := 404, view := none, location := none }) :=
  ⟨⟨by decide, by decide,
      (serveBrowse_rejects [] "/browse/".toList (fun _ => none) "POST".toList
        "/browse/search".toList).1 (by decide) (by decide)⟩,
    ⟨by decide, by decide,
      (serveBrowse_rejects [] "/browse/".toList (fun _ => none) "GET".toList
        "/browse/nothing".toList).2 (Or.inl rfl) (by decide) (by decide) (by decide)
        (by decide)⟩⟩

end Facette
